import Mathlib

/-!
Shallow embedding of the nearest-city resolution logic of
`src/photini/facebook.py` (class `FacebookSession`): the module-level
`cities_cache`, and the methods `distance`, `is_city`, `get_places` and
`get_cities` (the "resolve_cities" operation of the specification).

Modelling conventions:
* Python dicts for places are records with `Option` fields; a `none` field
  models an absent key, and reading an absent key is a `KeyError`, modelled
  with `Except String`.
* Python strings are Lean `String`s; the word-level operations of
  `get_cities` (split, index, slice, lower) are carried out on the
  character list `String.data`, with structural recursion.
* The floating-point distance computation of `FacebookSession.distance`
  (equirectangular formula with `math.cos`/`math.sqrt`) is abstracted as a
  rational-valued parameter `dist` of `get_cities`: every claim about
  `get_cities` concerns only comparisons of computed distances against the
  thresholds 500, 1000 and 1.0e12, so the theorems quantify over all
  distance functions, the code's formula among them.
* The network search `get_places` (pagination included) is abstracted as an
  oracle `search : LatLong → ℕ → String → Except String (List Place)`
  giving the full sequence of yielded places, or the exception the HTTP
  layer raises (`FacebookSession.get` calls `raise_for_status` and catches
  nothing).  `get_cities` additionally returns the log of search calls it
  issued and the cache left behind, making the side effects explicit.
* `list.sort(key=lambda x: -hist[x])` is a stable descending sort by
  frequency; a stable sort is extensionally determined by key and input
  order, and is embedded here as a stable insertion sort.
-/

namespace Photini

/-- A latitude/longitude pair (the `latlong` argument, with fields
`.lat` and `.lon` as used by the code). -/
structure LatLong where
  lat : ℚ
  lon : ℚ
deriving DecidableEq

/-- The `location` sub-dict of a place record: `latitude` and `longitude`
keys may be absent (checked by `is_city`), and the `city` key may be absent
(read unguardedly by `get_cities`). -/
structure PlaceLoc where
  latitude : Option ℚ
  longitude : Option ℚ
  city : Option String
deriving DecidableEq

/-- A place record as returned by the search API with the requested fields
`category,id,location,name`; any of them may be absent. -/
structure Place where
  category : Option String
  id : Option String
  location : Option PlaceLoc
  name : Option String
deriving DecidableEq

/-- The `location` dict stored in a cache entry by `get_cities`; it is
always written with both keys present. -/
structure CacheLoc where
  latitude : ℚ
  longitude : ℚ
deriving DecidableEq

/-- One entry of the module-level `cities_cache` list. -/
structure CacheEntry where
  location : CacheLoc
  cities_list : List Place
deriving DecidableEq

/-- One call to `get_places`: the `center`, `distance` and `q` request
parameters of the search it performs. -/
structure SearchCall where
  center : LatLong
  distance : ℕ
  query : String
deriving DecidableEq

instance {ε α : Type} [DecidableEq ε] [DecidableEq α] : DecidableEq (Except ε α) :=
  fun a b =>
  match a, b with
  | .ok x, .ok y => decidable_of_iff (x = y) (by simp)
  | .error x, .error y => decidable_of_iff (x = y) (by simp)
  | .ok _, .error _ => isFalse (by simp)
  | .error _, .ok _ => isFalse (by simp)

/-- The result of one `get_cities` call: the returned list (or the
propagated exception), the log of search calls issued, and the state of
`cities_cache` after the call. -/
structure Outcome where
  result : Except String (List Place)
  calls : List SearchCall
  cache : List CacheEntry
deriving DecidableEq

/-- The word-frequency histogram `hist` (a `defaultdict(int)`), kept as an
association list in key-insertion order. -/
abbrev Hist := List (String × ℕ)

/-- `hist[w]` for a key known to be present (0, the `defaultdict` default,
otherwise). -/
def histGet (h : Hist) (w : String) : ℕ :=
  ((h.find? (fun p => p.1 = w)).map (fun p => p.2)).getD 0

/-- `hist[w] += 1`: bump an existing key, or append a new key with count 1
(dict insertion order). -/
def histIncr (h : Hist) (w : String) : Hist :=
  if h.any (fun p => p.1 = w) then
    h.map (fun p => if p.1 = w then (p.1, p.2 + 1) else p)
  else h ++ [(w, 1)]

/-- The category tuple of `is_city`. -/
def cityCategories : List String :=
  ["City", "Neighborhood", "Country", "State/province/region"]

/-- `FacebookSession.is_city` (facebook.py lines 168-172):
`place['category'] in (...) and 'latitude' in place['location'] and
'longitude' in place['location']`.  Reading `place['category']` raises if
the key is absent; `place['location']` is only read (and only raises) when
the category test succeeded, by `and` short-circuiting. -/
def is_city (p : Place) : Except String Bool :=
  match p.category with
  | none => .error "KeyError: category"
  | some c =>
    if c ∈ cityCategories then
      match p.location with
      | none => .error "KeyError: location"
      | some loc => .ok (loc.latitude.isSome && loc.longitude.isSome)
    else .ok false

/-- Python `str.split()`: split on whitespace runs, no empty tokens.
`acc` holds the characters of the token in progress, reversed. -/
def pySplitGo : List Char → List Char → List (List Char)
  | acc, [] => if acc = [] then [] else [acc.reverse]
  | acc, c :: cs =>
    if c.isWhitespace then
      (if acc = [] then pySplitGo [] cs else acc.reverse :: pySplitGo [] cs)
    else pySplitGo (c :: acc) cs

/-- `s.split()` on a Python string. -/
def pySplit (s : String) : List (List Char) := pySplitGo [] s.data

/-- The two stripping statements of `get_cities` (facebook.py lines
192-195): `if word and word[0] in (',', '('): word = word[1:]` then
`if word and word[-1] in (',', ')'): word = word[:-1]`. -/
def stripWord (w : List Char) : List Char :=
  let w1 := if w ≠ [] ∧ (w.head? = some ',' ∨ w.head? = some '(') then w.drop 1 else w
  if w1 ≠ [] ∧ (w1.getLast? = some ',' ∨ w1.getLast? = some ')') then w1.dropLast else w1

/-- `word.lower()`, then back to a string (histogram keys and search
queries are Python strings). -/
def lowerStr (w : List Char) : String := String.mk (w.map Char.toLower)

/-- The per-word body of the histogram loop (facebook.py lines 192-197):
strip, then `if len(word) > 2: hist[word.lower()] += 1`. -/
def processWord (h : Hist) (w : List Char) : Hist :=
  let w := stripWord w
  if w.length > 2 then histIncr h (lowerStr w) else h

/-- Left fold through `Except`, stopping at the first error (the Python
`for` loop bodies that can raise). -/
def foldlE {α β : Type} (f : β → α → Except String β) : β → List α → Except String β
  | b, [] => .ok b
  | b, a :: as =>
    match f b a with
    | .error e => .error e
    | .ok b' => foldlE f b' as

/-- The body of the primary loop for one place (facebook.py lines 190-199):
read `place['name']` and `place['location']['city']` (each read can raise
KeyError), split and accumulate the words into the histogram, then
`if place not in result and self.is_city(place): result.append(place)`
(by `and` short-circuiting, `is_city` runs only when the membership test
passed). -/
def processPlace (hr : Hist × List Place) (p : Place) : Except String (Hist × List Place) :=
  match p.name with
  | none => .error "KeyError: name"
  | some name =>
    match p.location with
    | none => .error "KeyError: location"
    | some loc =>
      match loc.city with
      | none => .error "KeyError: city"
      | some city =>
        let words := pySplit name ++ pySplit city
        let h := words.foldl processWord hr.1
        if p ∈ hr.2 then .ok (h, hr.2)
        else
          match is_city p with
          | .error e => .error e
          | .ok true => .ok (h, hr.2 ++ [p])
          | .ok false => .ok (h, hr.2)

/-- The whole primary loop: fold `processPlace` over the places yielded by
the 1000 m search, starting from the empty histogram and the seeded
result. -/
def primaryPhase (places : List Place) (result0 : List Place) :
    Except String (Hist × List Place) :=
  foldlE processPlace ([], result0) places

/-- `if not hist: hist['city'] = 1` (facebook.py lines 200-201). -/
def seededHist (h : Hist) : Hist :=
  if h = [] then [("city", 1)] else h

/-- Stable insertion into a descending-frequency list: the new word goes
after every word of frequency ≥ its own. -/
def insertDesc (freq : String → ℕ) (w : String) : List String → List String
  | [] => [w]
  | v :: vs => if freq v < freq w then w :: v :: vs else v :: insertDesc freq w vs

/-- `words = list(hist.keys()); words.sort(key=lambda x: -hist[x])`
(facebook.py lines 202-203): the keys in insertion order, stably sorted by
descending frequency. -/
def sortedWords (h : Hist) : List String :=
  (h.map Prod.fst).foldl (fun acc w => insertDesc (histGet h) w acc) []

/-- `threshold = hist[words[len(words) // 2]]` (facebook.py line 205). -/
def thresholdOf (h : Hist) : ℕ :=
  histGet h ((sortedWords h).getD ((sortedWords h).length / 2) "")

/-- The body of the secondary inner loop for one place (facebook.py lines
210-211): `if place not in result and self.is_city(place):
result.append(place)` (`is_city` runs, and can raise, only when the
membership test passed). -/
def addCityStep (r : List Place) (p : Place) : Except String (List Place) :=
  if p ∈ r then .ok r
  else
    match is_city p with
    | .error e => .error e
    | .ok true => .ok (r ++ [p])
    | .ok false => .ok r

/-- The inner loop of the secondary phase over the places of one 10000 m
search. -/
def addCities (r : List Place) (ps : List Place) : Except String (List Place) :=
  foldlE addCityStep r ps

/-- The secondary loop (facebook.py lines 206-211): walk the words, break
at the first word of frequency ≤ threshold, otherwise search it at 10000 m
and add the qualifying places.  Returns the queried words in order
together with the final result or the propagated exception. -/
def secondaryLoop (search : String → Except String (List Place)) (h : Hist)
    (threshold : ℕ) (result : List Place) :
    List String → List String × Except String (List Place)
  | [] => ([], .ok result)
  | w :: ws =>
    if histGet h w ≤ threshold then ([], .ok result)
    else
      match search w with
      | .error e => ([w], .error e)
      | .ok ps =>
        match addCities result ps with
        | .error e => ([w], .error e)
        | .ok r' =>
          let rest := secondaryLoop search h threshold r' ws
          (w :: rest.1, rest.2)

/-- The cache scan of `get_cities` (facebook.py lines 176-180):
`nearest = None, 1.0e12`, then keep the strictly closest entry's list. -/
def nearestInCache (dist : CacheLoc → ℚ) (cache : List CacheEntry) :
    Option (List Place) × ℚ :=
  cache.foldl
    (fun acc e =>
      let d := dist e.location
      if d < acc.2 then (some e.cities_list, d) else acc)
    (none, 10 ^ 12)

/-- `FacebookSession.get_cities` (facebook.py lines 174-216), the
specification's `resolve_cities`.  `dist latlong` is the computed
equirectangular distance from `latlong` to a cache entry's location;
`search latlong d q` is the full outcome of `self.get_places(latlong, d, q)`. -/
def get_cities (dist : LatLong → CacheLoc → ℚ)
    (search : LatLong → ℕ → String → Except String (List Place))
    (cache : List CacheEntry) (latlong : LatLong) : Outcome :=
  let nearest := nearestInCache (dist latlong) cache
  if nearest.2 < 500 then
    ⟨.ok (nearest.1.getD []), [], cache⟩
  else
    let result0 := if nearest.2 < 1000 then nearest.1.getD [] else []
    match search latlong 1000 "" with
    | .error e => ⟨.error e, [⟨latlong, 1000, ""⟩], cache⟩
    | .ok places =>
      match primaryPhase places result0 with
      | .error e => ⟨.error e, [⟨latlong, 1000, ""⟩], cache⟩
      | .ok (h0, result1) =>
        let h := seededHist h0
        let words := sortedWords h
        let threshold := thresholdOf h
        let sec := secondaryLoop (search latlong 10000) h threshold result1 (words.take 5)
        let calls := ⟨latlong, 1000, ""⟩ :: sec.1.map (fun w => ⟨latlong, 10000, w⟩)
        match sec.2 with
        | .error e => ⟨.error e, calls, cache⟩
        | .ok result =>
          ⟨.ok result, calls,
           cache ++ [⟨⟨latlong.lat, latlong.lon⟩, result⟩]⟩

/-! Concrete inputs used to instantiate the theorems below. -/

/-- A sample coordinate. -/
def exLatLong : LatLong := ⟨0, 0⟩

/-- A distance function putting every cache entry at 0 m. -/
def exDistZero : LatLong → CacheLoc → ℚ := fun _ _ => 0

/-- A distance function putting every cache entry at 700 m. -/
def exDist700 : LatLong → CacheLoc → ℚ := fun _ _ => 700

/-- A search oracle that finds nothing. -/
def exSearchEmpty : LatLong → ℕ → String → Except String (List Place) :=
  fun _ _ _ => .ok []

/-- A search oracle whose every call raises. -/
def exSearchFail : LatLong → ℕ → String → Except String (List Place) :=
  fun _ _ _ => .error "boom"

/-- A well-formed city place with id 1 and name aaaa. -/
def exPlaceA : Place := ⟨some "City", some "1", some ⟨some 0, some 0, some ""⟩, some "aaaa"⟩

/-- A well-formed city place that shares id 1 with `exPlaceA` but has name bbbb. -/
def exPlaceB : Place := ⟨some "City", some "1", some ⟨some 0, some 0, some ""⟩, some "bbbb"⟩

/-- A search oracle returning the two id-sharing places. -/
def exSearchAB : LatLong → ℕ → String → Except String (List Place) :=
  fun _ _ _ => .ok [exPlaceA, exPlaceB]

/-- A place with an eligible category and no location key. -/
def exPlaceNoLoc : Place := ⟨some "City", some "9", none, some "xxxx"⟩

/-- A search oracle returning only `exPlaceNoLoc`. -/
def exSearchNoLoc : LatLong → ℕ → String → Except String (List Place) :=
  fun _ _ _ => .ok [exPlaceNoLoc]

/-- A place with a non-eligible category and no location key. -/
def exPlaceRest : Place := ⟨some "Restaurant", some "2", none, some "rrrr"⟩

/-- A place with an eligible category whose location lacks both coordinates. -/
def exPlaceNoLat : Place := ⟨some "City", some "3", some ⟨none, none, some ""⟩, some "nnnn"⟩

/-- A cache entry holding `exPlaceA`. -/
def exCacheEntry : CacheEntry := ⟨⟨0, 0⟩, [exPlaceA]⟩

/-- A non-city place whose name yields the histogram aaaa ↦ 2, bbbb ↦ 1. -/
def exPlaceTok : Place := ⟨some "X", some "4", some ⟨none, none, some ""⟩, some "aaaa aaaa bbbb"⟩

/-- A search oracle: the 1000 m search finds `exPlaceTok`, wider searches
find nothing. -/
def exSearchTok : LatLong → ℕ → String → Except String (List Place) :=
  fun _ d _ => if d = 1000 then .ok [exPlaceTok] else .ok []



/-- The tokenization rule as the specification words it (spec section 4.1
step 5): strip exactly one leading character when it is `(` or `,`, strip
exactly one trailing character when it is `)` or `,`, discard the token if
its remaining length is at most 2, and lowercase the kept token.  Compared
below with the code's `processWord`. -/
def specToken (w : List Char) : Option String :=
  let w1 := if w.head? = some ',' ∨ w.head? = some '(' then w.drop 1 else w
  let w2 := if w1.getLast? = some ',' ∨ w1.getLast? = some ')' then w1.dropLast else w1
  if w2.length ≤ 2 then none else some (lowerStr w2)

/-! ## Theorems -/

/-- The cache scan returns either the untouched initial accumulator or the
list and distance of some cache entry. -/
lemma nearestInCache_spec (d : CacheLoc → ℚ) (cache : List CacheEntry) :
    nearestInCache d cache = (none, 10 ^ 12) ∨
    ∃ e ∈ cache, nearestInCache d cache = (some e.cities_list, d e.location) := by
  suffices h : ∀ init : Option (List Place) × ℚ,
      cache.foldl (fun acc e => let d' := d e.location;
        if d' < acc.2 then (some e.cities_list, d') else acc) init = init ∨
      ∃ e ∈ cache, cache.foldl (fun acc e => let d' := d e.location;
        if d' < acc.2 then (some e.cities_list, d') else acc) init
        = (some e.cities_list, d e.location) by
    simpa [nearestInCache] using h (none, 10 ^ 12)
  induction cache with
  | nil => intro init; exact Or.inl rfl
  | cons e cs ih =>
    intro init
    simp only [List.foldl_cons]
    rcases ih (if d e.location < init.2 then (some e.cities_list, d e.location) else init) with h | ⟨e', he', h⟩
    · rw [h]
      by_cases hd : d e.location < init.2
      · exact Or.inr ⟨e, List.mem_cons_self .., by simp [hd]⟩
      · simp [hd]
    · exact Or.inr ⟨e', List.mem_cons_of_mem _ he', h⟩

/-- Claim C1: for every coordinate whose computed distance to the nearest
cache entry is below 500 m, `get_cities` returns that entry's cached list
identically, issues no search calls, and leaves the cache unchanged. -/
theorem resolve_cities_cache_hit (dist : LatLong → CacheLoc → ℚ)
    (search : LatLong → ℕ → String → Except String (List Place))
    (cache : List CacheEntry) (latlong : LatLong)
    (h : (nearestInCache (dist latlong) cache).2 < 500) :
    ∃ e ∈ cache,
      dist latlong e.location = (nearestInCache (dist latlong) cache).2 ∧
      get_cities dist search cache latlong = ⟨.ok e.cities_list, [], cache⟩ := by
  rcases nearestInCache_spec (dist latlong) cache with hn | ⟨e, he, hn⟩
  · rw [hn] at h; norm_num at h
  · refine ⟨e, he, by rw [hn], ?_⟩
    unfold get_cities
    rw [if_pos h, hn]
    rfl

/-- Witness for C1 at a one-entry cache and the zero distance function. -/
theorem resolve_cities_cache_hit_witness :
    (nearestInCache (exDistZero exLatLong) [exCacheEntry]).2 < 500 ∧
    ∃ e ∈ [exCacheEntry],
      exDistZero exLatLong e.location = (nearestInCache (exDistZero exLatLong) [exCacheEntry]).2 ∧
      get_cities exDistZero exSearchEmpty [exCacheEntry] exLatLong
        = ⟨.ok e.cities_list, [], [exCacheEntry]⟩ :=
  ⟨by decide,
   resolve_cities_cache_hit exDistZero exSearchEmpty [exCacheEntry] exLatLong (by decide)⟩

/-- Claim C5: `is_city` returns true exactly when the category is one of
the four eligible ones and the location has both coordinates present. -/
theorem is_city_true_iff (p : Place) :
    is_city p = .ok true ↔
      ((∃ c, p.category = some c ∧ c ∈ cityCategories) ∧
       ∃ loc, p.location = some loc ∧ loc.latitude.isSome ∧ loc.longitude.isSome) := by
  rcases p with ⟨cat, id, loc, name⟩
  rcases cat with _ | c
  · simp [is_city]
  · rcases loc with _ | l
    · by_cases hc : c ∈ cityCategories <;> simp [is_city, hc]
    · by_cases hc : c ∈ cityCategories <;>
        simp [is_city, hc, Bool.and_eq_true, and_assoc]

/-- Claim C4 (counterexample): a place with an eligible category and no
location key makes `is_city` raise KeyError, and a resolver run over such a
place raises instead of handling it defensively. -/
theorem is_city_missing_location_raises_cex :
    is_city exPlaceNoLoc = .error "KeyError: location" ∧
    (get_cities exDistZero exSearchNoLoc [] exLatLong).result
      = .error "KeyError: location" := by decide

/-- Claim C4 (amended): `is_city` is defensive only in part: a record whose
present category is not eligible yields false without reading the location,
and a record with both category and location present never raises (missing
latitude or longitude inside the location yields false); but a missing
location key itself is read unguardedly (see the counterexample). -/
theorem is_city_partial_defensiveness :
    (∀ (p : Place) (c : String), p.category = some c → c ∉ cityCategories →
      is_city p = .ok false) ∧
    (∀ (p : Place) (c : String) (loc : PlaceLoc), p.category = some c →
      p.location = some loc → ∃ b, is_city p = .ok b) := by
  constructor
  · intro p c hc hmem
    simp [is_city, hc, hmem]
  · intro p c loc hc hloc
    by_cases hmem : c ∈ cityCategories
    · exact ⟨loc.latitude.isSome && loc.longitude.isSome,
        by simp [is_city, hc, hloc, hmem]⟩
    · exact ⟨false, by simp [is_city, hc, hmem]⟩

/-- Witness for C4 (amended) at a non-eligible category and at a location
lacking both coordinates. -/
theorem is_city_partial_defensiveness_witness :
    is_city exPlaceRest = .ok false ∧ ∃ b, is_city exPlaceNoLat = .ok b :=
  ⟨is_city_partial_defensiveness.1 exPlaceRest "Restaurant" rfl (by decide),
   is_city_partial_defensiveness.2 exPlaceNoLat "City" ⟨none, none, some ""⟩ rfl rfl⟩

/-- Claim C2 (counterexample): with an empty cache and a search oracle that
finds nothing, `get_cities` returns the empty list but issues no
10000 m secondary search at all (the claim asserts exactly one, with query
city): the sole call is the primary 1000 m search. -/
theorem no_secondary_search_cex :
    get_cities exDistZero exSearchEmpty [] exLatLong
      = ⟨.ok [], [⟨exLatLong, 1000, ""⟩], [⟨⟨0, 0⟩, []⟩]⟩ ∧
    ((get_cities exDistZero exSearchEmpty [] exLatLong).calls.filter
        (fun c => c.distance == 10000)).length = 0 := by decide

/-- Claim C2 (amended): when the cache is empty and the 1000 m free-text
search returns zero places, `get_cities` returns the empty list and the
histogram is seeded to city ↦ 1; but no secondary search is issued: the
seeded token's frequency 1 equals the threshold, so the top-5 loop breaks
before its first search, and the only call is the primary one. -/
theorem empty_cache_empty_search (dist : LatLong → CacheLoc → ℚ)
    (search : LatLong → ℕ → String → Except String (List Place))
    (latlong : LatLong) (hs : search latlong 1000 "" = .ok []) :
    get_cities dist search [] latlong
      = ⟨.ok [], [⟨latlong, 1000, ""⟩], [⟨⟨latlong.lat, latlong.lon⟩, []⟩]⟩ ∧
    seededHist [] = [("city", 1)] := by
  refine ⟨?_, rfl⟩
  have h1 : ¬ ((nearestInCache (dist latlong) []).2 < 500) := by
    norm_num [nearestInCache]
  unfold get_cities
  rw [if_neg h1, hs]
  rfl

/-- Witness for C2 (amended) at the empty search oracle. -/
theorem empty_cache_empty_search_witness :
    exSearchEmpty exLatLong 1000 "" = .ok [] ∧
    (get_cities exDistZero exSearchEmpty [] exLatLong
      = ⟨.ok [], [⟨exLatLong, 1000, ""⟩], [⟨⟨exLatLong.lat, exLatLong.lon⟩, []⟩]⟩ ∧
     seededHist [] = [("city", 1)]) :=
  ⟨rfl, empty_cache_empty_search exDistZero exSearchEmpty exLatLong rfl⟩

/-- Generic invariant preservation through `foldlE`. -/
lemma foldlE_invariant {α β : Type} (f : β → α → Except String β) (P : β → Prop)
    (hf : ∀ b a b', f b a = .ok b' → P b → P b') :
    ∀ (as : List α) (b b' : β), foldlE f b as = .ok b' → P b → P b' := by
  intro as
  induction as with
  | nil =>
    intro b b' h hb
    simp only [foldlE, Except.ok.injEq] at h
    exact h ▸ hb
  | cons a as ih =>
    intro b b' h hb
    simp only [foldlE] at h
    cases hfa : f b a with
    | error e => rw [hfa] at h; simp at h
    | ok b1 => rw [hfa] at h; exact ih b1 b' h (hf b a b1 hfa hb)

/-- One primary-loop step leaves the result list unchanged or appends the
one new place, and appends only when it was absent. -/
lemma processPlace_result (hr hr' : Hist × List Place) (p : Place)
    (h : processPlace hr p = .ok hr') :
    hr'.2 = hr.2 ∨ (p ∉ hr.2 ∧ hr'.2 = hr.2 ++ [p]) := by
  unfold processPlace at h
  cases hname : p.name with
  | none => rw [hname] at h; simp at h
  | some name =>
    rw [hname] at h; dsimp only at h
    cases hloc : p.location with
    | none => rw [hloc] at h; simp at h
    | some loc =>
      rw [hloc] at h; dsimp only at h
      cases hcity : loc.city with
      | none => rw [hcity] at h; simp at h
      | some city =>
        rw [hcity] at h; dsimp only at h
        by_cases hm : p ∈ hr.2
        · rw [if_pos hm] at h
          simp only [Except.ok.injEq] at h
          left; rw [← h]
        · rw [if_neg hm] at h
          cases hic : is_city p with
          | error e => rw [hic] at h; simp at h
          | ok b =>
            rw [hic] at h
            cases b
            · simp only [Except.ok.injEq] at h
              left; rw [← h]
            · simp only [Except.ok.injEq] at h
              right; exact ⟨hm, by rw [← h]⟩

/-- One secondary-loop step leaves the result list unchanged or appends the
one new place, and appends only when it was absent. -/
lemma addCityStep_result (r : List Place) (p : Place) (r' : List Place)
    (h : addCityStep r p = .ok r') :
    r' = r ∨ (p ∉ r ∧ r' = r ++ [p]) := by
  unfold addCityStep at h
  by_cases hm : p ∈ r
  · rw [if_pos hm] at h
    simp only [Except.ok.injEq] at h
    left; rw [← h]
  · rw [if_neg hm] at h
    cases hic : is_city p with
    | error e => rw [hic] at h; simp at h
    | ok b =>
      rw [hic] at h
      cases b
      · simp only [Except.ok.injEq] at h
        left; rw [← h]
      · simp only [Except.ok.injEq] at h
        right; exact ⟨hm, by rw [← h]⟩

/-- Appending an absent element preserves duplicate-freedom. -/
lemma nodup_append_singleton {α : Type} {l : List α} {a : α}
    (hl : l.Nodup) (ha : a ∉ l) : (l ++ [a]).Nodup := by
  simp [List.nodup_append, hl, ha]

/-- The primary loop only grows the result list, preserving
duplicate-freedom. -/
lemma primaryPhase_mono (places : List Place) (r0 : List Place) (h0 : Hist)
    (r1 : List Place) (h : primaryPhase places r0 = .ok (h0, r1)) :
    r0 ⊆ r1 ∧ (r0.Nodup → r1.Nodup) := by
  have key := foldlE_invariant processPlace
    (fun hr => r0 ⊆ hr.2 ∧ (r0.Nodup → hr.2.Nodup))
    (by
      intro b a b' hstep ⟨hsub, hnd⟩
      rcases processPlace_result b b' a hstep with heq | ⟨habs, heq⟩
      · exact ⟨heq ▸ hsub, heq ▸ hnd⟩
      · refine ⟨heq ▸ List.Subset.trans hsub (List.subset_append_left _ _), fun hn => ?_⟩
        rw [heq]
        exact nodup_append_singleton (hnd hn) habs)
    places ([], r0) (h0, r1) h ⟨List.Subset.refl _, id⟩
  exact key

/-- The secondary inner loop only grows the result list, preserving
duplicate-freedom. -/
lemma addCities_mono (r : List Place) (ps : List Place) (r' : List Place)
    (h : addCities r ps = .ok r') : r ⊆ r' ∧ (r.Nodup → r'.Nodup) := by
  exact foldlE_invariant addCityStep
    (fun x => r ⊆ x ∧ (r.Nodup → x.Nodup))
    (by
      intro b a b' hstep ⟨hsub, hnd⟩
      rcases addCityStep_result b a b' hstep with heq | ⟨habs, heq⟩
      · exact ⟨heq ▸ hsub, heq ▸ hnd⟩
      · refine ⟨heq ▸ List.Subset.trans hsub (List.subset_append_left _ _), fun hn => ?_⟩
        rw [heq]
        exact nodup_append_singleton (hnd hn) habs)
    ps r r' h ⟨List.Subset.refl _, id⟩

/-- A successful secondary loop only grows the result list, preserving
duplicate-freedom. -/
lemma secondaryLoop_ok_mono (s : String → Except String (List Place)) (h : Hist)
    (t : ℕ) :
    ∀ (ws : List String) (r res : List Place),
      (secondaryLoop s h t r ws).2 = .ok res →
      r ⊆ res ∧ (r.Nodup → res.Nodup) := by
  intro ws
  induction ws with
  | nil =>
    intro r res hh
    simp only [secondaryLoop, Except.ok.injEq] at hh
    exact ⟨hh ▸ List.Subset.refl _, hh ▸ id⟩
  | cons w ws ih =>
    intro r res hh
    rw [secondaryLoop] at hh
    by_cases hg : histGet h w ≤ t
    · rw [if_pos hg] at hh
      simp only [Except.ok.injEq] at hh
      exact ⟨hh ▸ List.Subset.refl _, hh ▸ id⟩
    · rw [if_neg hg] at hh
      cases hs : s w with
      | error e => rw [hs] at hh; simp at hh
      | ok ps =>
        rw [hs] at hh; dsimp only at hh
        cases hac : addCities r ps with
        | error e => rw [hac] at hh; simp at hh
        | ok r1 =>
          rw [hac] at hh; dsimp only at hh
          have h1 := addCities_mono r ps r1 hac
          have h2 := ih r1 res hh
          exact ⟨List.Subset.trans h1.1 h2.1, fun hn => h2.2 (h1.2 hn)⟩

/-- On a cache miss, `get_cities` is the primary search followed by the
primary loop, the seeding, and the secondary loop. -/
lemma get_cities_miss (dist : LatLong → CacheLoc → ℚ)
    (search : LatLong → ℕ → String → Except String (List Place))
    (cache : List CacheEntry) (latlong : LatLong)
    (hmiss : ¬ (nearestInCache (dist latlong) cache).2 < 500) :
    get_cities dist search cache latlong =
      match search latlong 1000 "" with
      | .error e => ⟨.error e, [⟨latlong, 1000, ""⟩], cache⟩
      | .ok places =>
        match primaryPhase places
            (if (nearestInCache (dist latlong) cache).2 < 1000
             then (nearestInCache (dist latlong) cache).1.getD [] else []) with
        | .error e => ⟨.error e, [⟨latlong, 1000, ""⟩], cache⟩
        | .ok (h0, result1) =>
          let h := seededHist h0
          let sec := secondaryLoop (search latlong 10000) h (thresholdOf h)
            result1 ((sortedWords h).take 5)
          let calls := SearchCall.mk latlong 1000 ""
            :: sec.1.map (fun w => ⟨latlong, 10000, w⟩)
          match sec.2 with
          | .error e => ⟨.error e, calls, cache⟩
          | .ok result =>
            ⟨.ok result, calls, cache ++ [⟨⟨latlong.lat, latlong.lon⟩, result⟩]⟩ := by
  unfold get_cities
  rw [if_neg hmiss]

/-- Inversion of a successful cache-miss run: the primary search and the
primary loop succeeded, the secondary loop produced the result, and the
whole outcome (calls and appended cache entry included) is determined. -/
lemma get_cities_ok_inv (dist : LatLong → CacheLoc → ℚ)
    (search : LatLong → ℕ → String → Except String (List Place))
    (cache : List CacheEntry) (latlong : LatLong) (res : List Place)
    (hmiss : ¬ (nearestInCache (dist latlong) cache).2 < 500)
    (hok : (get_cities dist search cache latlong).result = .ok res) :
    ∃ places h0 r1,
      search latlong 1000 "" = .ok places ∧
      primaryPhase places
        (if (nearestInCache (dist latlong) cache).2 < 1000
         then (nearestInCache (dist latlong) cache).1.getD [] else [])
        = .ok (h0, r1) ∧
      (secondaryLoop (search latlong 10000) (seededHist h0)
        (thresholdOf (seededHist h0)) r1
        ((sortedWords (seededHist h0)).take 5)).2 = .ok res ∧
      get_cities dist search cache latlong =
        ⟨.ok res,
         SearchCall.mk latlong 1000 ""
           :: (secondaryLoop (search latlong 10000) (seededHist h0)
               (thresholdOf (seededHist h0)) r1
               ((sortedWords (seededHist h0)).take 5)).1.map
             (fun w => ⟨latlong, 10000, w⟩),
         cache ++ [⟨⟨latlong.lat, latlong.lon⟩, res⟩]⟩ := by
  have hmain := get_cities_miss dist search cache latlong hmiss
  rw [hmain] at hok
  cases hs : search latlong 1000 "" with
  | error e => rw [hs] at hok; simp at hok
  | ok places =>
    rw [hs] at hok; dsimp only at hok
    cases hpp : primaryPhase places
        (if (nearestInCache (dist latlong) cache).2 < 1000
         then (nearestInCache (dist latlong) cache).1.getD [] else []) with
    | error e => rw [hpp] at hok; simp at hok
    | ok pr =>
      rcases pr with ⟨h0, r1⟩
      rw [hpp] at hok; dsimp only at hok
      cases hsec : (secondaryLoop (search latlong 10000) (seededHist h0)
          (thresholdOf (seededHist h0)) r1
          ((sortedWords (seededHist h0)).take 5)).2 with
      | error e => rw [hsec] at hok; simp at hok
      | ok result =>
        rw [hsec] at hok; dsimp only at hok
        simp only [Except.ok.injEq] at hok
        subst hok
        refine ⟨places, h0, r1, rfl, hpp, hsec, ?_⟩
        rw [hmain, hs]
        dsimp only
        rw [hpp]
        dsimp only
        rw [hsec]

/-- Claim C3 (counterexample): a run whose returned list holds two distinct
place records sharing one identifier — deduplication is by whole-record
equality, not by identifier. -/
theorem duplicate_identifier_cex :
    (get_cities exDistZero exSearchAB [] exLatLong).result = .ok [exPlaceA, exPlaceB] ∧
    exPlaceA.id = exPlaceB.id ∧ exPlaceA ≠ exPlaceB := by decide

/-- Claim C3 (amended): in every list returned by `get_cities`, no place
record appears twice (deduplication is by whole-record equality, so places
that are distinct records sharing an identifier may both appear), provided
every cached entry's list is itself duplicate-free. -/
theorem result_nodup (dist : LatLong → CacheLoc → ℚ)
    (search : LatLong → ℕ → String → Except String (List Place))
    (cache : List CacheEntry) (latlong : LatLong) (res : List Place)
    (hok : (get_cities dist search cache latlong).result = .ok res)
    (hcache : ∀ e ∈ cache, e.cities_list.Nodup) :
    res.Nodup := by
  by_cases hmiss : (nearestInCache (dist latlong) cache).2 < 500
  · unfold get_cities at hok
    rw [if_pos hmiss] at hok
    rcases nearestInCache_spec (dist latlong) cache with hn | ⟨e, he, hn⟩ <;>
      rw [hn] at hok <;> dsimp only at hok <;>
      simp only [Except.ok.injEq] at hok <;> subst hok
    · exact List.nodup_nil
    · exact hcache e he
  · obtain ⟨places, h0, r1, hs, hpp, hsec, -⟩ :=
      get_cities_ok_inv dist search cache latlong res hmiss hok
    have hr0 : (if (nearestInCache (dist latlong) cache).2 < 1000
        then (nearestInCache (dist latlong) cache).1.getD [] else []).Nodup := by
      split
      · rcases nearestInCache_spec (dist latlong) cache with hn | ⟨e, he, hn⟩ <;> rw [hn]
        · exact List.nodup_nil
        · exact hcache e he
      · exact List.nodup_nil
    exact (secondaryLoop_ok_mono _ _ _ _ _ _ hsec).2
      ((primaryPhase_mono _ _ _ _ hpp).2 hr0)

/-- Witness for C3 (amended) at the run of the counterexample oracle. -/
theorem result_nodup_witness :
    (get_cities exDistZero exSearchAB [] exLatLong).result = .ok [exPlaceA, exPlaceB] ∧
    ([exPlaceA, exPlaceB] : List Place).Nodup :=
  ⟨by decide,
   result_nodup exDistZero exSearchAB [] exLatLong [exPlaceA, exPlaceB]
     (by decide) (by decide)⟩

/-- Claim C8: for a coordinate whose nearest cache entry lies at a computed
distance in [500, 1000), every place of that entry's cached list is in the
returned list. -/
theorem seeded_results_superset (dist : LatLong → CacheLoc → ℚ)
    (search : LatLong → ℕ → String → Except String (List Place))
    (cache : List CacheEntry) (latlong : LatLong) (res : List Place)
    (h5 : 500 ≤ (nearestInCache (dist latlong) cache).2)
    (h10 : (nearestInCache (dist latlong) cache).2 < 1000)
    (hok : (get_cities dist search cache latlong).result = .ok res) :
    ∃ e ∈ cache,
      (nearestInCache (dist latlong) cache).1 = some e.cities_list ∧
      ∀ p ∈ e.cities_list, p ∈ res := by
  have hmiss : ¬ (nearestInCache (dist latlong) cache).2 < 500 := not_lt.mpr h5
  rcases nearestInCache_spec (dist latlong) cache with hn | ⟨e, he, hn⟩
  · rw [hn] at h10; norm_num at h10
  · obtain ⟨places, h0, r1, hs, hpp, hsec, -⟩ :=
      get_cities_ok_inv dist search cache latlong res hmiss hok
    refine ⟨e, he, by rw [hn], fun p hp => ?_⟩
    have hseed : (if (nearestInCache (dist latlong) cache).2 < 1000
        then (nearestInCache (dist latlong) cache).1.getD [] else [])
        = e.cities_list := by rw [if_pos h10, hn]; rfl
    rw [hseed] at hpp
    exact (secondaryLoop_ok_mono _ _ _ _ _ _ hsec).1
      ((primaryPhase_mono _ _ _ _ hpp).1 hp)

/-- Witness for C8 at a cache entry 700 m away. -/
theorem seeded_results_superset_witness :
    (500 ≤ (nearestInCache (exDist700 exLatLong) [exCacheEntry]).2) ∧
    ((nearestInCache (exDist700 exLatLong) [exCacheEntry]).2 < 1000) ∧
    ∃ e ∈ [exCacheEntry],
      (nearestInCache (exDist700 exLatLong) [exCacheEntry]).1 = some e.cities_list ∧
      ∀ p ∈ e.cities_list, p ∈ [exPlaceA] :=
  ⟨by decide, by decide,
   seeded_results_superset exDist700 exSearchEmpty [exCacheEntry] exLatLong
     [exPlaceA] (by decide) (by decide) (by decide)⟩

/-- A failed run leaves the cache untouched: the new entry is appended only
on the all-successful path. -/
lemma get_cities_error_cache (dist : LatLong → CacheLoc → ℚ)
    (search : LatLong → ℕ → String → Except String (List Place))
    (cache : List CacheEntry) (latlong : LatLong) (e : String)
    (herr : (get_cities dist search cache latlong).result = .error e) :
    (get_cities dist search cache latlong).cache = cache := by
  by_cases hmiss : (nearestInCache (dist latlong) cache).2 < 500
  · unfold get_cities at herr
    rw [if_pos hmiss] at herr
    simp at herr
  · rw [get_cities_miss dist search cache latlong hmiss] at herr ⊢
    cases hs : search latlong 1000 "" with
    | error e1 => rfl
    | ok places =>
      rw [hs] at herr; dsimp only at herr
      dsimp only
      cases hpp : primaryPhase places
          (if (nearestInCache (dist latlong) cache).2 < 1000
           then (nearestInCache (dist latlong) cache).1.getD [] else []) with
      | error e1 => rfl
      | ok pr =>
        rcases pr with ⟨h0, r1⟩
        rw [hpp] at herr; dsimp only at herr
        dsimp only
        cases hsec : (secondaryLoop (search latlong 10000) (seededHist h0)
            (thresholdOf (seededHist h0)) r1
            ((sortedWords (seededHist h0)).take 5)).2 with
        | error e1 => rfl
        | ok result => rw [hsec] at herr; simp at herr

/-- Claim C10: a run in which a search raises leaves the cache exactly as
it was; a successful cache-miss run appends exactly one entry, whose stored
location is the queried coordinate and whose stored list is the returned
result, with the existing entries untouched; a cache hit changes nothing. -/
theorem cache_update_discipline (dist : LatLong → CacheLoc → ℚ)
    (search : LatLong → ℕ → String → Except String (List Place))
    (cache : List CacheEntry) (latlong : LatLong) :
    (∀ e, (get_cities dist search cache latlong).result = .error e →
       (get_cities dist search cache latlong).cache = cache) ∧
    (∀ res, ¬ (nearestInCache (dist latlong) cache).2 < 500 →
       (get_cities dist search cache latlong).result = .ok res →
       (get_cities dist search cache latlong).cache
         = cache ++ [⟨⟨latlong.lat, latlong.lon⟩, res⟩]) ∧
    ((nearestInCache (dist latlong) cache).2 < 500 →
       (get_cities dist search cache latlong).cache = cache) := by
  refine ⟨fun e herr => get_cities_error_cache dist search cache latlong e herr,
    fun res hmiss hok => ?_, fun hhit => ?_⟩
  · obtain ⟨places, h0, r1, hs, hpp, hsec, heq⟩ :=
      get_cities_ok_inv dist search cache latlong res hmiss hok
    rw [heq]
  · unfold get_cities
    rw [if_pos hhit]

/-- Witness for C10 at a failing oracle (cache untouched) and at a
successful empty-cache run (one entry appended). -/
theorem cache_update_discipline_witness :
    ((get_cities exDistZero exSearchFail [] exLatLong).result = .error "boom" ∧
     (get_cities exDistZero exSearchFail [] exLatLong).cache = []) ∧
    ((get_cities exDistZero exSearchEmpty [] exLatLong).result = .ok [] ∧
     (get_cities exDistZero exSearchEmpty [] exLatLong).cache
       = [] ++ [⟨⟨exLatLong.lat, exLatLong.lon⟩, []⟩]) :=
  ⟨⟨by decide,
    (cache_update_discipline exDistZero exSearchFail [] exLatLong).1 "boom" (by decide)⟩,
   ⟨by decide,
    (cache_update_discipline exDistZero exSearchEmpty [] exLatLong).2.1 []
      (by decide) (by decide)⟩⟩

/-- Every word queried by the secondary loop was actually searched: its
search either succeeded, or its error is the loop's final error. -/
lemma secondaryLoop_calls_spec (s : String → Except String (List Place)) (h : Hist)
    (t : ℕ) :
    ∀ (ws : List String) (r : List Place) (w : String),
      w ∈ (secondaryLoop s h t r ws).1 →
      (∃ ps, s w = .ok ps) ∨
      ∃ e, s w = .error e ∧ (secondaryLoop s h t r ws).2 = .error e := by
  intro ws
  induction ws with
  | nil => intro r w hw; simp [secondaryLoop] at hw
  | cons a ws ih =>
    intro r w hw
    rw [secondaryLoop] at hw ⊢
    by_cases hg : histGet h a ≤ t
    · rw [if_pos hg] at hw; simp at hw
    · rw [if_neg hg] at hw ⊢
      cases hs : s a with
      | error e =>
        rw [hs] at hw
        dsimp only at hw ⊢
        simp only [List.mem_singleton] at hw
        subst hw
        exact Or.inr ⟨e, hs, rfl⟩
      | ok ps =>
        rw [hs] at hw
        dsimp only at hw ⊢
        cases hac : addCities r ps with
        | error e =>
          rw [hac] at hw
          dsimp only at hw ⊢
          simp only [List.mem_singleton] at hw
          subst hw
          exact Or.inl ⟨ps, hs⟩
        | ok r1 =>
          rw [hac] at hw
          dsimp only at hw ⊢
          rcases List.mem_cons.mp hw with rfl | hw'
          · exact Or.inl ⟨ps, hs⟩
          · exact ih r1 w hw'

/-- The queried words form a prefix of the word list handed to the
secondary loop. -/
lemma secondaryLoop_calls_sub (s : String → Except String (List Place)) (h : Hist)
    (t : ℕ) :
    ∀ (ws : List String) (r : List Place),
      ∃ rest, ws = (secondaryLoop s h t r ws).1 ++ rest := by
  intro ws
  induction ws with
  | nil => intro r; exact ⟨[], rfl⟩
  | cons a ws ih =>
    intro r
    rw [secondaryLoop]
    by_cases hg : histGet h a ≤ t
    · rw [if_pos hg]; exact ⟨a :: ws, rfl⟩
    · rw [if_neg hg]
      cases hs : s a with
      | error e => exact ⟨ws, rfl⟩
      | ok ps =>
        dsimp only
        cases hac : addCities r ps with
        | error e => exact ⟨ws, rfl⟩
        | ok r1 =>
          obtain ⟨rest, hrest⟩ := ih r1
          exact ⟨rest, by dsimp only; rw [List.cons_append, ← hrest]⟩

/-- Stable insertion is a permutation of consing. -/
lemma insertDesc_perm (f : String → ℕ) (w : String) :
    ∀ l : List String, (insertDesc f w l).Perm (w :: l) := by
  intro l
  induction l with
  | nil => exact List.Perm.refl _
  | cons v vs ih =>
    rw [insertDesc]
    by_cases hf : f v < f w
    · rw [if_pos hf]
    · rw [if_neg hf]
      exact (ih.cons v).trans (List.Perm.swap w v vs)

/-- Folding stable insertions permutes the input onto the accumulator. -/
lemma foldl_insertDesc_perm (f : String → ℕ) :
    ∀ (l acc : List String),
      (l.foldl (fun a w => insertDesc f w a) acc).Perm (acc ++ l) := by
  intro l
  induction l with
  | nil => intro acc; simp
  | cons w l ih =>
    intro acc
    simp only [List.foldl_cons]
    refine (ih (insertDesc f w acc)).trans ?_
    refine ((insertDesc_perm f w acc).append_right l).trans ?_
    rw [List.cons_append]
    exact List.perm_middle.symm

/-- The sorted word list is a permutation of the histogram keys. -/
lemma sortedWords_perm (h : Hist) :
    (sortedWords h).Perm (h.map Prod.fst) := by
  simpa using foldl_insertDesc_perm (histGet h) (h.map Prod.fst) []

/-- Bumping a histogram value does not change the key list. -/
lemma map_fst_bump (h : Hist) (w : String) :
    (h.map (fun p => if p.1 = w then (p.1, p.2 + 1) else p)).map Prod.fst
      = h.map Prod.fst := by
  induction h with
  | nil => rfl
  | cons p h ih =>
    simp only [List.map_cons, ih]
    by_cases hp : p.1 = w
    · rw [if_pos hp]
    · rw [if_neg hp]

/-- `histIncr` preserves duplicate-freedom of the key list. -/
lemma histIncr_keys_nodup (h : Hist) (w : String)
    (hn : (h.map Prod.fst).Nodup) : ((histIncr h w).map Prod.fst).Nodup := by
  unfold histIncr
  by_cases ha : h.any (fun p => p.1 = w)
  · rw [if_pos ha, map_fst_bump]; exact hn
  · rw [if_neg ha]
    have hw : w ∉ h.map Prod.fst := by
      simp only [List.any_eq_true, decide_eq_true_eq] at ha
      simp only [List.mem_map]
      rintro ⟨p, hp, hpw⟩
      exact ha ⟨p, hp, hpw⟩
    simp only [List.map_append, List.map_cons, List.map_nil]
    exact nodup_append_singleton hn hw

/-- `processWord` preserves duplicate-freedom of the key list. -/
lemma processWord_keys_nodup (h : Hist) (w : List Char)
    (hn : (h.map Prod.fst).Nodup) : ((processWord h w).map Prod.fst).Nodup := by
  unfold processWord
  dsimp only
  split
  · exact histIncr_keys_nodup _ _ hn
  · exact hn

/-- Folding `processWord` preserves duplicate-freedom of the key list. -/
lemma foldl_processWord_keys_nodup (ws : List (List Char)) :
    ∀ h : Hist, (h.map Prod.fst).Nodup →
      ((ws.foldl processWord h).map Prod.fst).Nodup := by
  induction ws with
  | nil => intro h hn; exact hn
  | cons w ws ih => intro h hn; exact ih _ (processWord_keys_nodup h w hn)

/-- A successful primary step turns the histogram into a `processWord`
fold of the old one. -/
lemma processPlace_hist (hr hr' : Hist × List Place) (p : Place)
    (h : processPlace hr p = .ok hr') :
    ∃ ws : List (List Char), hr'.1 = ws.foldl processWord hr.1 := by
  unfold processPlace at h
  cases hname : p.name with
  | none => rw [hname] at h; simp at h
  | some name =>
    rw [hname] at h; dsimp only at h
    cases hloc : p.location with
    | none => rw [hloc] at h; simp at h
    | some loc =>
      rw [hloc] at h; dsimp only at h
      cases hcity : loc.city with
      | none => rw [hcity] at h; simp at h
      | some city =>
        rw [hcity] at h; dsimp only at h
        refine ⟨pySplit name ++ pySplit city, ?_⟩
        by_cases hm : p ∈ hr.2
        · rw [if_pos hm] at h
          simp only [Except.ok.injEq] at h
          rw [← h]
        · rw [if_neg hm] at h
          cases hic : is_city p with
          | error e => rw [hic] at h; simp at h
          | ok b =>
            rw [hic] at h
            cases b <;> simp only [Except.ok.injEq] at h <;> rw [← h]

/-- The primary loop yields a histogram with a duplicate-free key list. -/
lemma primaryPhase_keys_nodup (places : List Place) (r0 : List Place) (h0 : Hist)
    (r1 : List Place) (h : primaryPhase places r0 = .ok (h0, r1)) :
    (h0.map Prod.fst).Nodup := by
  exact foldlE_invariant processPlace (fun hr => (hr.1.map Prod.fst).Nodup)
    (by
      intro b a b' hstep hnb
      obtain ⟨ws, hws⟩ := processPlace_hist b b' a hstep
      rw [hws]
      exact foldl_processWord_keys_nodup ws b.1 hnb)
    places ([], r0) (h0, r1) h (by simp)

/-- Seeding the empty histogram keeps the key list duplicate-free. -/
lemma seededHist_keys_nodup (h : Hist) (hn : (h.map Prod.fst).Nodup) :
    ((seededHist h).map Prod.fst).Nodup := by
  unfold seededHist
  split
  · simp
  · exact hn

/-- The sorted word list of a duplicate-free histogram is duplicate-free. -/
lemma sortedWords_nodup (h : Hist) (hn : (h.map Prod.fst).Nodup) :
    (sortedWords h).Nodup :=
  (sortedWords_perm h).symm.nodup hn

/-- Claim C9: if an issued search call raised, the exception propagates
unchanged as the result of `get_cities` (nothing catches it), and the
failed call was issued exactly once (no retry). -/
theorem search_error_propagates (dist : LatLong → CacheLoc → ℚ)
    (search : LatLong → ℕ → String → Except String (List Place))
    (cache : List CacheEntry) (latlong : LatLong) (c : SearchCall) (e : String)
    (hc : c ∈ (get_cities dist search cache latlong).calls)
    (he : search c.center c.distance c.query = .error e) :
    (get_cities dist search cache latlong).result = .error e ∧
    (get_cities dist search cache latlong).calls.count c = 1 := by
  by_cases hmiss : (nearestInCache (dist latlong) cache).2 < 500
  · unfold get_cities at hc
    rw [if_pos hmiss] at hc
    simp at hc
  · rw [get_cities_miss dist search cache latlong hmiss] at hc ⊢
    cases hs : search latlong 1000 "" with
    | error e1 =>
      rw [hs] at hc
      dsimp only at hc ⊢
      simp only [List.mem_singleton] at hc
      subst hc
      have he' : search latlong 1000 "" = Except.error e := he
      rw [hs] at he'
      simp only [Except.error.injEq] at he'
      subst he'
      exact ⟨rfl, by simp⟩
    | ok places =>
      rw [hs] at hc
      dsimp only at hc ⊢
      cases hpp : primaryPhase places
          (if (nearestInCache (dist latlong) cache).2 < 1000
           then (nearestInCache (dist latlong) cache).1.getD [] else []) with
      | error e1 =>
        rw [hpp] at hc
        dsimp only at hc ⊢
        simp only [List.mem_singleton] at hc
        subst hc
        have he' : search latlong 1000 "" = Except.error e := he
        rw [hs] at he'
        simp at he'
      | ok pr =>
        rcases pr with ⟨h0, r1⟩
        rw [hpp] at hc
        dsimp only at hc ⊢
        have hc' : c ∈ SearchCall.mk latlong 1000 "" ::
            ((secondaryLoop (search latlong 10000) (seededHist h0)
              (thresholdOf (seededHist h0)) r1
              ((sortedWords (seededHist h0)).take 5)).1).map
              (fun w => SearchCall.mk latlong 10000 w) := by
          cases hsec0 : (secondaryLoop (search latlong 10000) (seededHist h0)
              (thresholdOf (seededHist h0)) r1
              ((sortedWords (seededHist h0)).take 5)).2 with
          | error e1 => rw [hsec0] at hc; exact hc
          | ok result => rw [hsec0] at hc; exact hc
        rcases List.mem_cons.mp hc' with rfl | hmem
        · have he' : search latlong 1000 "" = Except.error e := he
          rw [hs] at he'
          simp at he'
        · obtain ⟨w, hwsec, rfl⟩ := List.mem_map.mp hmem
          have he' : search latlong 10000 w = Except.error e := he
          rcases secondaryLoop_calls_spec (search latlong 10000) (seededHist h0)
              (thresholdOf (seededHist h0)) ((sortedWords (seededHist h0)).take 5)
              r1 w hwsec with ⟨ps, hok2⟩ | ⟨e2, herr2, hsec2⟩
          · rw [he'] at hok2; simp at hok2
          · rw [he'] at herr2
            simp only [Except.error.injEq] at herr2
            subst herr2
            have hkeys := seededHist_keys_nodup h0
              (primaryPhase_keys_nodup places _ h0 r1 hpp)
            have hws := sortedWords_nodup (seededHist h0) hkeys
            have htake : ((sortedWords (seededHist h0)).take 5).Nodup :=
              List.Nodup.sublist (List.take_sublist 5 _) hws
            obtain ⟨rest, hrest⟩ := secondaryLoop_calls_sub (search latlong 10000)
              (seededHist h0) (thresholdOf (seededHist h0))
              ((sortedWords (seededHist h0)).take 5) r1
            rw [hrest] at htake
            have hqs := htake.of_append_left
            have hinj : Function.Injective
                (fun w => SearchCall.mk latlong 10000 w) := by
              intro a b hab
              cases hab
              rfl
            have hnotmem : SearchCall.mk latlong 1000 "" ∉
                ((secondaryLoop (search latlong 10000) (seededHist h0)
                  (thresholdOf (seededHist h0)) r1
                  ((sortedWords (seededHist h0)).take 5)).1).map
                  (fun w => SearchCall.mk latlong 10000 w) := by
              intro hmem2
              obtain ⟨w2, hw2, habs⟩ := List.mem_map.mp hmem2
              simp at habs
            have hnodup := List.nodup_cons.mpr ⟨hnotmem, hqs.map hinj⟩
            exact ⟨by rw [hsec2],
              by rw [hsec2]; exact List.count_eq_one_of_mem hnodup hc'⟩

/-- Witness for C9 at an oracle whose primary search raises. -/
theorem search_error_propagates_witness :
    (SearchCall.mk exLatLong 1000 "") ∈
      (get_cities exDistZero exSearchFail [] exLatLong).calls ∧
    ((get_cities exDistZero exSearchFail [] exLatLong).result = .error "boom" ∧
     (get_cities exDistZero exSearchFail [] exLatLong).calls.count
       (SearchCall.mk exLatLong 1000 "") = 1) :=
  ⟨by decide,
   search_error_propagates exDistZero exSearchFail [] exLatLong
     ⟨exLatLong, 1000, ""⟩ "boom" (by decide) rfl⟩

/-- The guards of the code's stripping are equivalent to the
specification's: a token whose first (last) character is checked is in
particular nonempty, so the emptiness conjuncts are redundant. -/
lemma stripWord_spec (w : List Char) :
    stripWord w =
      (let w1 := if w.head? = some ',' ∨ w.head? = some '(' then w.drop 1 else w
       if w1.getLast? = some ',' ∨ w1.getLast? = some ')' then w1.dropLast else w1) := by
  unfold stripWord
  dsimp only
  by_cases h1 : w.head? = some ',' ∨ w.head? = some '('
  · have hw1 : w ≠ [] := by
      intro hnil
      subst hnil
      rcases h1 with h1 | h1 <;> simp at h1
    rw [if_pos (show w ≠ [] ∧ (w.head? = some ',' ∨ w.head? = some '(') from ⟨hw1, h1⟩),
      if_pos h1]
    by_cases h2 : (w.drop 1).getLast? = some ',' ∨ (w.drop 1).getLast? = some ')'
    · have hw2 : w.drop 1 ≠ [] := by
        intro hnil
        rw [hnil] at h2
        rcases h2 with h2 | h2 <;> simp at h2
      rw [if_pos (show w.drop 1 ≠ [] ∧
          ((w.drop 1).getLast? = some ',' ∨ (w.drop 1).getLast? = some ')') from ⟨hw2, h2⟩),
        if_pos h2]
    · rw [if_neg (show ¬ (w.drop 1 ≠ [] ∧
          ((w.drop 1).getLast? = some ',' ∨ (w.drop 1).getLast? = some ')'))
          from fun hc => h2 hc.2),
        if_neg h2]
  · rw [if_neg (show ¬ (w ≠ [] ∧ (w.head? = some ',' ∨ w.head? = some '('))
        from fun hc => h1 hc.2),
      if_neg h1]
    by_cases h2 : w.getLast? = some ',' ∨ w.getLast? = some ')'
    · have hw2 : w ≠ [] := by
        intro hnil
        rw [hnil] at h2
        rcases h2 with h2 | h2 <;> simp at h2
      rw [if_pos (show w ≠ [] ∧
          (w.getLast? = some ',' ∨ w.getLast? = some ')') from ⟨hw2, h2⟩),
        if_pos h2]
    · rw [if_neg (show ¬ (w ≠ [] ∧ (w.getLast? = some ',' ∨ w.getLast? = some ')'))
          from fun hc => h2 hc.2),
        if_neg h2]

/-- The keep-or-discard step written with a strict guard (code) agrees with
the discard-or-keep step written with a non-strict guard (spec). -/
lemma processWord_final (h : Hist) (v : List Char) :
    (if v.length > 2 then histIncr h (lowerStr v) else h) =
      match (if v.length ≤ 2 then none else some (lowerStr v) : Option String) with
      | none => h
      | some t => histIncr h t := by
  by_cases h3 : v.length ≤ 2
  · rw [if_neg (show ¬ v.length > 2 by omega), if_pos h3]
  · rw [if_pos (show v.length > 2 by omega), if_neg h3]

/-- Claim C6: the per-token processing of the histogram loop agrees with
the specification's tokenization rule: strip exactly one leading `(` or
`,`, then exactly one trailing `)` or `,`, discard what is left if its
length is at most 2, and otherwise count its lowercasing. -/
theorem tokenization_matches_spec (h : Hist) (w : List Char) :
    processWord h w =
      match specToken w with
      | none => h
      | some t => histIncr h t := by
  unfold processWord specToken
  dsimp only
  rw [stripWord_spec w]
  exact processWord_final h _

/-- The words the secondary loop queries are an initial segment of the
high-frequency words: the frequency-above-threshold prefix, cut short only
by a raised search. -/
lemma secondaryLoop_calls_takeWhile (s : String → Except String (List Place))
    (h : Hist) (t : ℕ) :
    ∀ (ws : List String) (r : List Place),
      ∃ rest, ws.takeWhile (fun w => decide (t < histGet h w))
        = (secondaryLoop s h t r ws).1 ++ rest := by
  intro ws
  induction ws with
  | nil => intro r; exact ⟨[], rfl⟩
  | cons a ws ih =>
    intro r
    rw [secondaryLoop]
    by_cases hg : histGet h a ≤ t
    · rw [if_pos hg]
      exact ⟨(a :: ws).takeWhile (fun w => decide (t < histGet h w)), rfl⟩
    · rw [if_neg hg]
      rw [List.takeWhile_cons_of_pos (by simpa using Nat.lt_of_not_le hg)]
      cases hs : s a with
      | error e => exact ⟨ws.takeWhile (fun w => decide (t < histGet h w)), rfl⟩
      | ok ps =>
        dsimp only
        cases hac : addCities r ps with
        | error e => exact ⟨ws.takeWhile (fun w => decide (t < histGet h w)), rfl⟩
        | ok r1 =>
          obtain ⟨rest, hrest⟩ := ih r1
          exact ⟨rest, by dsimp only; rw [hrest, List.cons_append]⟩

/-- When the secondary loop completes without an exception, the queried
words are exactly the frequency-above-threshold prefix of the top words. -/
lemma secondaryLoop_ok_calls (s : String → Except String (List Place))
    (h : Hist) (t : ℕ) :
    ∀ (ws : List String) (r res : List Place),
      (secondaryLoop s h t r ws).2 = .ok res →
      (secondaryLoop s h t r ws).1
        = ws.takeWhile (fun w => decide (t < histGet h w)) := by
  intro ws
  induction ws with
  | nil => intro r res hh; rfl
  | cons a ws ih =>
    intro r res hh
    rw [secondaryLoop] at hh ⊢
    by_cases hg : histGet h a ≤ t
    · rw [if_pos hg] at hh ⊢
      rw [List.takeWhile_cons_of_neg (by simpa using Nat.not_lt.mpr hg)]
    · rw [if_neg hg] at hh ⊢
      rw [List.takeWhile_cons_of_pos (by simpa using Nat.lt_of_not_le hg)]
      cases hs : s a with
      | error e => rw [hs] at hh; simp at hh
      | ok ps =>
        rw [hs] at hh
        dsimp only at hh ⊢
        cases hac : addCities r ps with
        | error e => rw [hac] at hh; simp at hh
        | ok r1 =>
          rw [hac] at hh
          dsimp only at hh ⊢
          rw [ih r1 res hh]

/-- Claim C7: in a run that reaches the secondary phase, the threshold is
the frequency of the middle token of the descending-frequency sorted list,
at most 5 secondary searches are issued, each with a 10000 m radius and a
top-5 token as query, the queried tokens are an initial segment of the
frequency-above-threshold prefix of the top 5, and exactly that prefix
when no search raises. -/
theorem secondary_phase_calls (dist : LatLong → CacheLoc → ℚ)
    (search : LatLong → ℕ → String → Except String (List Place))
    (cache : List CacheEntry) (latlong : LatLong) (places : List Place)
    (h0 : Hist) (r1 : List Place)
    (hmiss : ¬ (nearestInCache (dist latlong) cache).2 < 500)
    (hps : search latlong 1000 "" = .ok places)
    (hpp : primaryPhase places
      (if (nearestInCache (dist latlong) cache).2 < 1000
       then (nearestInCache (dist latlong) cache).1.getD [] else [])
      = .ok (h0, r1)) :
    ∃ qs : List String,
      (get_cities dist search cache latlong).calls
        = SearchCall.mk latlong 1000 ""
          :: qs.map (fun w => SearchCall.mk latlong 10000 w) ∧
      thresholdOf (seededHist h0)
        = histGet (seededHist h0)
            ((sortedWords (seededHist h0)).getD
              ((sortedWords (seededHist h0)).length / 2) "") ∧
      qs.length ≤ 5 ∧
      (∃ rest, ((sortedWords (seededHist h0)).take 5).takeWhile
          (fun w => decide (thresholdOf (seededHist h0) < histGet (seededHist h0) w))
        = qs ++ rest) ∧
      (∀ res, (get_cities dist search cache latlong).result = .ok res →
        qs = ((sortedWords (seededHist h0)).take 5).takeWhile
          (fun w => decide (thresholdOf (seededHist h0) < histGet (seededHist h0) w))) := by
  refine ⟨(secondaryLoop (search latlong 10000) (seededHist h0)
      (thresholdOf (seededHist h0)) r1
      ((sortedWords (seededHist h0)).take 5)).1, ?_, rfl, ?_, ?_, ?_⟩
  · rw [get_cities_miss dist search cache latlong hmiss, hps]
    dsimp only
    rw [hpp]
    dsimp only
    cases hsec : (secondaryLoop (search latlong 10000) (seededHist h0)
        (thresholdOf (seededHist h0)) r1
        ((sortedWords (seededHist h0)).take 5)).2 with
    | error e => rfl
    | ok result => rfl
  · obtain ⟨rest, hrest⟩ := secondaryLoop_calls_sub (search latlong 10000)
      (seededHist h0) (thresholdOf (seededHist h0))
      ((sortedWords (seededHist h0)).take 5) r1
    have h1 := congrArg List.length hrest
    rw [List.length_append] at h1
    have h2 := List.length_take_le 5 (sortedWords (seededHist h0))
    omega
  · exact secondaryLoop_calls_takeWhile (search latlong 10000) (seededHist h0)
      (thresholdOf (seededHist h0)) ((sortedWords (seededHist h0)).take 5) r1
  · intro res hres
    rw [get_cities_miss dist search cache latlong hmiss, hps] at hres
    dsimp only at hres
    rw [hpp] at hres
    dsimp only at hres
    cases hsec : (secondaryLoop (search latlong 10000) (seededHist h0)
        (thresholdOf (seededHist h0)) r1
        ((sortedWords (seededHist h0)).take 5)).2 with
    | error e => rw [hsec] at hres; simp at hres
    | ok result =>
      exact secondaryLoop_ok_calls (search latlong 10000) (seededHist h0)
        (thresholdOf (seededHist h0)) ((sortedWords (seededHist h0)).take 5)
        r1 result hsec

/-- Witness for C7 at a primary search yielding the histogram
aaaa ↦ 2, bbbb ↦ 1 (threshold 1, one secondary search for aaaa). -/
theorem secondary_phase_calls_witness :
    (¬ (nearestInCache (exDistZero exLatLong) []).2 < 500) ∧
    ∃ qs : List String,
      (get_cities exDistZero exSearchTok [] exLatLong).calls
        = SearchCall.mk exLatLong 1000 ""
          :: qs.map (fun w => SearchCall.mk exLatLong 10000 w) ∧
      thresholdOf (seededHist [("aaaa", 2), ("bbbb", 1)])
        = histGet (seededHist [("aaaa", 2), ("bbbb", 1)])
            ((sortedWords (seededHist [("aaaa", 2), ("bbbb", 1)])).getD
              ((sortedWords (seededHist [("aaaa", 2), ("bbbb", 1)])).length / 2) "") ∧
      qs.length ≤ 5 ∧
      (∃ rest, ((sortedWords (seededHist [("aaaa", 2), ("bbbb", 1)])).take 5).takeWhile
          (fun w => decide (thresholdOf (seededHist [("aaaa", 2), ("bbbb", 1)])
            < histGet (seededHist [("aaaa", 2), ("bbbb", 1)]) w))
        = qs ++ rest) ∧
      (∀ res, (get_cities exDistZero exSearchTok [] exLatLong).result = .ok res →
        qs = ((sortedWords (seededHist [("aaaa", 2), ("bbbb", 1)])).take 5).takeWhile
          (fun w => decide (thresholdOf (seededHist [("aaaa", 2), ("bbbb", 1)])
            < histGet (seededHist [("aaaa", 2), ("bbbb", 1)]) w))) :=
  ⟨by decide,
   secondary_phase_calls exDistZero exSearchTok [] exLatLong [exPlaceTok]
     [("aaaa", 2), ("bbbb", 1)] [] (by decide) (by decide) (by decide)⟩

end Photini
